import Mathlib

/-!
Shallow embedding of `music_sheet_to_pianoroll.py`.

The script has two functions:
* `music21_stream_to_piano_roll`: flattens a music21 stream into a list of
  `(pitch, start, end)` tuples (one per sounding pitch; chords expand).
* `save_piano_roll_fig`: renders the list as a figure — computes the y bounds
  from the pitch range, sorts the list in place by end time (Python's stable
  `list.sort`), draws one colored segment per event, optionally builds a
  legend, and saves the figure, catching `FileNotFoundError` when the output
  directory does not exist.

Modelling conventions:
* MIDI pitches are `ℤ` (Python ints); times (`float`/`Fraction` in the source)
  are `ℚ`.
* Python `%` on ints with a positive modulus agrees with `Int.emod` (`%` on
  `ℤ` in Lean): the result lies in `[0, 12)`.
* Python list indexing `xs[i]` can raise `IndexError`; it is modelled with
  `xs[i]?` and (where the program structure guarantees success) totalised
  with `getD`.
* Matplotlib calls are modelled by recording their observable effect in a
  `RenderResult` (axis limits, drawn segments, legend entries, saved file,
  log output).  The filesystem is abstracted by one boolean, `dirExists`:
  whether `output_path/piano_rolls` exists; `fig.savefig` raises
  `FileNotFoundError` exactly when it does not.
* The in-place `piano_roll.sort(...)` is modelled by state passing: the
  `sortedRoll` field of the result is the list the caller's variable holds
  after the call.
* Python exceptions escaping the function are modelled with `Except`:
  `min([])` / `max([])` raise `ValueError`.
-/

/-- Line 9-10 of the source: the fixed 12-color palette. -/
def GRAPH_COLORS : List String :=
  ["red", "green", "blue", "yellow", "purple", "orange", "cyan", "magenta",
   "lime", "pink", "teal", "lavender"]

/-- Line 11 of the source: the fixed 12-entry pitch-class table. -/
def PITCH_CLASSES : List String :=
  ["C", "C#/Db", "D", "D#/Eb", "E", "F", "F#/Gb", "G", "G#/Ab", "A", "A#/Bb", "B"]

/-- A piano-roll event: `(pitch, start, end)`. -/
abbrev NoteEvent : Type := ℤ × ℚ × ℚ

/-- Python exceptions that the script can raise or catch. -/
inductive PyError : Type
  | valueError
  | fileNotFoundError
deriving DecidableEq, Repr

/-- Model of `GRAPH_COLORS[pitch % 12]` (lines 40, 41): the color assigned to a pitch.
The index `pitch % 12` is always in bounds (see the safety claim), so the
`getD` default is never reached. -/
def colorOf (pitch : ℤ) : String :=
  (GRAPH_COLORS[(pitch % 12).toNat]?).getD "INDEX_ERROR"

/-- Model of `PITCH_CLASSES[pitch % 12]` (line 41): the pitch-class name of a pitch. -/
def pitchClassName (pitch : ℤ) : String :=
  (PITCH_CLASSES[(pitch % 12).toNat]?).getD "INDEX_ERROR"

/-- Python `min(list)` (line 26): raises `ValueError` on an empty list. -/
def pyMin (l : List ℤ) : Except PyError ℤ :=
  match l with
  | [] => .error .valueError
  | x :: xs => .ok (xs.foldl min x)

/-- Python `max(list)` (line 27): raises `ValueError` on an empty list. -/
def pyMax (l : List ℤ) : Except PyError ℤ :=
  match l with
  | [] => .error .valueError
  | x :: xs => .ok (xs.foldl max x)

/-- Ordering used by `piano_roll.sort(key=lambda n: n[2])` (line 35):
compare events by their end time. -/
def endTimeLE (a b : NoteEvent) : Prop := a.2.2 ≤ b.2.2

instance : DecidableRel endTimeLE := fun a b => inferInstanceAs (Decidable (a.2.2 ≤ b.2.2))

instance : IsTotal NoteEvent endTimeLE := ⟨fun a b => le_total a.2.2 b.2.2⟩

instance : IsTrans NoteEvent endTimeLE := ⟨fun _ _ _ hab hbc => le_trans hab hbc⟩

/-- Model of `piano_roll.sort(key=lambda n: n[2], reverse=False)` (line 35): Python's
`list.sort` is a stable ascending sort; insertion sort (inserting each
element from the left before the first strictly larger key) realises the same
function. -/
def pianoRollSort (piano_roll : List NoteEvent) : List NoteEvent :=
  List.insertionSort endTimeLE piano_roll

/-- Ordering used by `sorted(legend.items(), key=lambda item: PITCH_CLASSES.index(item[0]))`
(line 57): compare legend entries by the position of their pitch-class name in
`PITCH_CLASSES`. -/
def legendEntryLE (a b : String × String) : Prop :=
  PITCH_CLASSES.indexOf a.1 ≤ PITCH_CLASSES.indexOf b.1

instance : DecidableRel legendEntryLE :=
  fun a b => inferInstanceAs (Decidable (PITCH_CLASSES.indexOf a.1 ≤ PITCH_CLASSES.indexOf b.1))

instance : IsTotal (String × String) legendEntryLE :=
  ⟨fun a b => le_total (PITCH_CLASSES.indexOf a.1) (PITCH_CLASSES.indexOf b.1)⟩

instance : IsTrans (String × String) legendEntryLE :=
  ⟨fun _ _ _ hab hbc => le_trans hab hbc⟩

/-- Python dict assignment `d[k] = v` on a dict modelled as an insertion-ordered
association list: an existing key keeps its position and gets the new value; a
new key is appended. -/
def dictInsert (d : List (String × String)) (k v : String) : List (String × String) :=
  if d.any (fun kv => kv.1 = k) then
    d.map (fun kv => if kv.1 = k then (k, v) else kv)
  else
    d ++ [(k, v)]

/-- The legend dict after the drawing loop (lines 37-41): for each event in
order, `legend[PITCH_CLASSES[pc]] = GRAPH_COLORS[pc]`. -/
def buildLegend (sortedRoll : List NoteEvent) : List (String × String) :=
  sortedRoll.foldl (fun d n => dictInsert d (pitchClassName n.1) (colorOf n.1)) []

/-- Python `range(a, b, 12)` (lines 52-53). -/
def pyRangeStep12 (a b : ℤ) : List ℤ :=
  if a < b then a :: pyRangeStep12 (a + 12) b else []
termination_by (b - a).toNat
decreasing_by
  omega

/-- The observable effect of `save_piano_roll_fig`. -/
structure RenderResult : Type where
  /-- The caller's list after the in-place `piano_roll.sort` (line 35). -/
  sortedRoll : List NoteEvent
  /-- Arguments of `ax.set_xlim` (lines 43-46). -/
  xlim : ℚ × ℚ
  /-- Arguments of `ax.set_ylim(min_y, max_y)` (line 47). -/
  ylim : ℤ × ℤ
  /-- One `ax.plot([start, end], [pitch, pitch], color=...)` per event (lines 37-40):
  recorded as `(start, end, pitch, color)` in drawing order. -/
  segments : List (ℚ × ℚ × ℤ × String)
  /-- Argument of `ax.set_yticks` (line 52). -/
  yticks : List ℤ
  /-- The legend dict after the drawing loop (line 41). -/
  legendDict : List (String × String)
  /-- The legend actually displayed (lines 56-62): the dict re-sorted against
  `PITCH_CLASSES`; empty when `show_legend` is false. -/
  legendShown : List (String × String)
  /-- The file written by `fig.savefig` (line 64), if any. -/
  savedFile : Option String
  /-- Messages printed (line 67). -/
  log : List String
deriving DecidableEq, Repr

/-- The body of `save_piano_roll_fig` after the `min`/`max` calls of lines
26-27 have succeeded with values `min_pitch` and `max_pitch` (lines 28-68):
* `min_y = min_pitch - min_pitch % 12` and
  `max_y = max_pitch + 13 - max_pitch % 12` (lines 28-29);
* the list is sorted in place by end time (line 35);
* one segment per event colored by `GRAPH_COLORS[pitch % 12]`, and the legend
  dict is filled (lines 37-41);
* `xlim` is `(0, last end + 0.1)`, or `(0, 1)` when the list is empty
  (lines 43-46), and `ylim` is `(min_y, max_y)` (line 47);
* when `show_legend`, the legend is re-sorted by `PITCH_CLASSES.index`
  (lines 56-62);
* `fig.savefig` writes the file, and the `FileNotFoundError` raised when the
  output directory does not exist is caught and a message printed
  (lines 63-68). -/
def renderBody (min_pitch max_pitch : ℤ) (piano_roll : List NoteEvent)
    (path : String) (output_path : String) (show_legend : Bool)
    (dirExists : Bool) : RenderResult :=
  let min_y := min_pitch - (min_pitch % 12)
  let max_y := max_pitch + 13 - (max_pitch % 12)
  let sorted := pianoRollSort piano_roll
  let xlim : ℚ × ℚ :=
    match sorted.getLast? with
    | some last => (0, last.2.2 + 1 / 10)
    | none => (0, 1)
  { sortedRoll := sorted
    xlim := xlim
    ylim := (min_y, max_y)
    segments := sorted.map (fun n => (n.2.1, n.2.2, n.1, colorOf n.1))
    yticks := pyRangeStep12 min_y max_y
    legendDict := buildLegend sorted
    legendShown :=
      if show_legend then List.insertionSort legendEntryLE (buildLegend sorted) else []
    savedFile :=
      if dirExists then some (output_path ++ "/piano_rolls/" ++ path ++ ".png") else none
    log :=
      if dirExists then []
      else ["The directory does not exist for saving the piano roll figure."] }

/-- Shallow embedding of `save_piano_roll_fig` (lines 16-68).

`dirExists` abstracts the filesystem: whether `output_path/piano_rolls`
exists.  The function first computes `min`/`max` of the pitches
(lines 26-27) — both raise `ValueError` exactly when the list is empty, with
`min` evaluated first — and then runs `renderBody`. -/
def save_piano_roll_fig (piano_roll : List NoteEvent) (path : String)
    (output_path : String) (show_legend : Bool) (dirExists : Bool) :
    Except PyError RenderResult :=
  match pyMin (piano_roll.map (fun n => n.1)), pyMax (piano_roll.map (fun n => n.1)) with
  | .error e, _ => .error e
  | _, .error e => .error e
  | .ok min_pitch, .ok max_pitch =>
      .ok (renderBody min_pitch max_pitch piano_roll path output_path show_legend dirExists)

/-- An element of the flattened stream's `.notes` iteration, as the
`isinstance` chain of lines 83-91 distinguishes them: a single note (pitch,
absolute offset in the flat stream, quarter length), a chord (list of pitches,
absolute offset, quarter length), or any other element, which the loop body
skips. -/
inductive StreamElement : Type
  | note (pitch : ℤ) (offset : ℚ) (quarterLength : ℚ)
  | chord (pitches : List ℤ) (offset : ℚ) (quarterLength : ℚ)
  | other
deriving DecidableEq, Repr

/-- Whether an element is a single note or a chord (the elements the loop of
lines 82-91 emits tuples for). -/
def isNoteOrChord : StreamElement → Bool
  | .note _ _ _ => true
  | .chord _ _ _ => true
  | .other => false

/-- The `quarterLength` of an element (0 for skipped elements). -/
def quarterLengthOf : StreamElement → ℚ
  | .note _ _ ql => ql
  | .chord _ _ ql => ql
  | .other => 0

/-- Shallow embedding of `music21_stream_to_piano_roll` (lines 71-93): walk
the flattened stream; a note contributes `(pitch, offset, offset + ql)`, a
chord contributes one such tuple per constituent pitch (in order), anything
else contributes nothing. -/
def music21_stream_to_piano_roll : List StreamElement → List NoteEvent
  | [] => []
  | .note p off ql :: rest =>
      (p, off, off + ql) :: music21_stream_to_piano_roll rest
  | .chord ps off ql :: rest =>
      ps.map (fun q => (q, off, off + ql)) ++ music21_stream_to_piano_roll rest
  | .other :: rest => music21_stream_to_piano_roll rest

/-! ## Helper lemmas about the flattener -/

/-- A stream with no note or chord elements yields an empty piano roll. -/
theorem roll_eq_nil_of_filter_eq_nil (s : List StreamElement)
    (h : s.filter isNoteOrChord = []) : music21_stream_to_piano_roll s = [] := by
  induction s with
  | nil => rfl
  | cons e rest ih =>
    cases e with
    | note p off ql => simp [List.filter, isNoteOrChord] at h
    | chord ps off ql => simp [List.filter, isNoteOrChord] at h
    | other =>
      simp only [List.filter, isNoteOrChord] at h
      exact ih h

/-- The flattener distributes over list append. -/
theorem roll_append (s1 s2 : List StreamElement) :
    music21_stream_to_piano_roll (s1 ++ s2) =
      music21_stream_to_piano_roll s1 ++ music21_stream_to_piano_roll s2 := by
  induction s1 with
  | nil => rfl
  | cons e rest ih =>
    cases e <;> simp [music21_stream_to_piano_roll, ih]

/-! ## Claim theorems -/

/-- C1: the claim states that for the empty piano roll list,
`save_piano_roll_fig` completes without raising and sets the x bounds to
`(0, 1)`.  The code instead raises `ValueError` at `min([n[0] for n in
piano_roll])` (line 26) before the empty-list x-axis branch (line 46) can
run: the function never completes on empty input. -/
theorem save_piano_roll_fig_empty_raises_valueError :
    save_piano_roll_fig [] "score" "." false true = .error .valueError := by
  simp [save_piano_roll_fig, pyMin]

/-- C4: for every stream whose note-or-chord elements are exactly one single
note with pitch `p`, offset `t` and duration `d`,
`music21_stream_to_piano_roll` returns exactly one tuple, `(p, t, t + d)`. -/
theorem single_note_yields_one_tuple (s : List StreamElement) (p : ℤ) (t d : ℚ)
    (h : s.filter isNoteOrChord = [.note p t d]) :
    music21_stream_to_piano_roll s = [(p, t, t + d)] := by
  induction s with
  | nil => simp at h
  | cons e rest ih =>
    cases e with
    | note p2 off2 ql2 =>
      simp only [List.filter, isNoteOrChord, List.cons.injEq] at h
      obtain ⟨h1, h2⟩ := h
      cases h1
      simp [music21_stream_to_piano_roll, roll_eq_nil_of_filter_eq_nil rest h2]
    | chord ps off ql =>
      simp only [List.filter, isNoteOrChord, List.cons.injEq] at h
      exact absurd h.1 (by simp)
    | other =>
      simp only [List.filter, isNoteOrChord] at h
      simp [music21_stream_to_piano_roll, ih h]

/-- C4 witness: a stream holding one note (pitch 60, offset 0, duration 1)
beside a skipped element flattens to the single tuple `(60, 0, 1)`. -/
theorem single_note_yields_one_tuple_witness :
    music21_stream_to_piano_roll [.other, .note 60 0 1] = [(60, 0, 1)] := by
  rw [single_note_yields_one_tuple [.other, .note 60 0 1] 60 0 1 rfl]
  norm_num

/-- C5: for every chord element of `k` pitches in the flattened stream,
`music21_stream_to_piano_roll` emits exactly `k` tuples for that chord, one
per constituent pitch, all sharing the chord's start `off` and end
`off + ql`. -/
theorem chord_yields_k_tuples (s1 s2 : List StreamElement) (ps : List ℤ)
    (off ql : ℚ) :
    music21_stream_to_piano_roll (s1 ++ .chord ps off ql :: s2) =
      music21_stream_to_piano_roll s1 ++
        ps.map (fun q => (q, off, off + ql)) ++
        music21_stream_to_piano_roll s2 ∧
    (ps.map (fun q => (q, off, off + ql))).length = ps.length ∧
    ∀ ev ∈ ps.map (fun q => ((q, off, off + ql) : NoteEvent)),
      ev.2.1 = off ∧ ev.2.2 = off + ql := by
  refine ⟨?_, List.length_map ps _, ?_⟩
  · rw [roll_append]
    simp [music21_stream_to_piano_roll]
  · intro ev hev
    obtain ⟨q, _, rfl⟩ := List.mem_map.mp hev
    exact ⟨rfl, rfl⟩

/-- C7: the color assigned to an event depends on its pitch class only
(pitches with equal `% 12` share a color from the fixed palette), and in
particular every pitch `p` gets the same color as `p + 12`. -/
theorem color_function_of_pitch_class :
    (∀ p q : ℤ, p % 12 = q % 12 → colorOf p = colorOf q) ∧
    ∀ p : ℤ, colorOf p = colorOf (p + 12) := by
  have base : ∀ p q : ℤ, p % 12 = q % 12 → colorOf p = colorOf q := by
    intro p q hpq
    unfold colorOf
    rw [hpq]
  refine ⟨base, fun p => base p (p + 12) ?_⟩
  omega

/-- C7 witness: pitches 3 and 15 (= 3 + 12) receive the same color. -/
theorem color_function_of_pitch_class_witness : colorOf 3 = colorOf 15 :=
  color_function_of_pitch_class.1 3 15 (by decide)

/-- C9: every event emitted by `music21_stream_to_piano_roll` satisfies
`end ≥ start`, provided every element's `quarterLength` is nonnegative. -/
theorem roll_end_ge_start (s : List StreamElement)
    (h : ∀ e ∈ s, 0 ≤ quarterLengthOf e) :
    ∀ ev ∈ music21_stream_to_piano_roll s, ev.2.1 ≤ ev.2.2 := by
  induction s with
  | nil => simp [music21_stream_to_piano_roll]
  | cons e rest ih =>
    have hrest : ∀ e2 ∈ rest, 0 ≤ quarterLengthOf e2 :=
      fun e2 he2 => h e2 (List.mem_cons_of_mem e he2)
    have hql : 0 ≤ quarterLengthOf e := h e (List.mem_cons_self e rest)
    cases e with
    | note p off ql =>
      have hq : (0 : ℚ) ≤ ql := by simpa [quarterLengthOf] using hql
      intro ev hev
      rcases List.mem_cons.mp hev with rfl | hmem
      · simpa using le_add_of_nonneg_right (a := off) hq
      · exact ih hrest ev hmem
    | chord ps off ql =>
      have hq : (0 : ℚ) ≤ ql := by simpa [quarterLengthOf] using hql
      intro ev hev
      rcases List.mem_append.mp hev with hmap | hmem
      · obtain ⟨q, _, rfl⟩ := List.mem_map.mp hmap
        simpa using le_add_of_nonneg_right (a := off) hq
      · exact ih hrest ev hmem
    | other => exact ih hrest

/-- C9 witness: in the roll of a one-note stream with duration 1, the single
event `(60, 0, 1)` has `end ≥ start`. -/
theorem roll_end_ge_start_witness :
    ((60 : ℤ), (0 : ℚ), (1 : ℚ)).2.1 ≤ ((60 : ℤ), (0 : ℚ), (1 : ℚ)).2.2 := by
  refine roll_end_ge_start [.note 60 0 1] ?_ (60, 0, 1) ?_
  · intro e he
    simp only [List.mem_singleton] at he
    subst he
    norm_num [quarterLengthOf]
  · norm_num [music21_stream_to_piano_roll]

/-- C10: for every integer pitch `p` (negative values and values beyond the
MIDI range included), Python's `p % 12` lies in `{0, ..., 11}`, so indexing
the 12-entry `GRAPH_COLORS` palette and the 12-entry `PITCH_CLASSES` table
always succeeds. -/
theorem pitch_class_indexing_in_bounds (p : ℤ) :
    0 ≤ p % 12 ∧ p % 12 < 12 ∧
    (GRAPH_COLORS[(p % 12).toNat]?).isSome = true ∧
    (PITCH_CLASSES[(p % 12).toNat]?).isSome = true := by
  have h0 : 0 ≤ p % 12 := Int.emod_nonneg p (by norm_num)
  have h1 : p % 12 < 12 := Int.emod_lt_of_pos p (by norm_num)
  have hidx : (p % 12).toNat < 12 := by omega
  have hg : (p % 12).toNat < GRAPH_COLORS.length := by
    simp only [GRAPH_COLORS, List.length_cons, List.length_nil]
    omega
  have hp : (p % 12).toNat < PITCH_CLASSES.length := by
    simp only [PITCH_CLASSES, List.length_cons, List.length_nil]
    omega
  refine ⟨h0, h1, ?_, ?_⟩
  · rw [List.getElem?_eq_getElem hg]
    rfl
  · rw [List.getElem?_eq_getElem hp]
    rfl

/-- Helper: on a list of pitches written as `p :: ps`, `save_piano_roll_fig`
succeeds and returns the rendered result for `min = ps.foldl min p` and
`max = ps.foldl max p`. -/
theorem save_piano_roll_fig_ok (piano_roll : List NoteEvent) (p : ℤ)
    (ps : List ℤ) (h : piano_roll.map (fun n => n.1) = p :: ps)
    (path output_path : String) (show_legend dirExists : Bool) :
    save_piano_roll_fig piano_roll path output_path show_legend dirExists =
      .ok (renderBody (ps.foldl min p) (ps.foldl max p) piano_roll path
            output_path show_legend dirExists) := by
  unfold save_piano_roll_fig
  rw [h]
  rfl

/-- C2 counterexample: for the input spanning MIDI 60 to 72 the code sets the
vertical bounds to `(60, 85)` (`max_y = 72 + 13 - 0`), and `85` is not a
multiple of 12: the upper bound is not an octave boundary, so the bounds are
not the octave-aligned range containing the span. -/
theorem ylim_not_octave_aligned_on_60_72 :
    Except.map (fun r => r.ylim)
        (save_piano_roll_fig [(60, 0, 1), (72, 1, 2)] "score" "." false true) =
      Except.ok ((60 : ℤ), (85 : ℤ)) ∧ ¬ (12 : ℤ) ∣ 85 := by
  constructor
  · rw [save_piano_roll_fig_ok [(60, 0, 1), (72, 1, 2)] 60 [72] rfl]
    rfl
  · decide

/-- C2 amended: for every non-empty piano roll, the lower vertical bound is
the minimum pitch rounded down to the nearest multiple of 12, and the upper
vertical bound is one more than the smallest multiple of 12 strictly greater
than the maximum pitch (`max_pitch + 13 - max_pitch % 12`); for notes
spanning MIDI 60 to 72 this gives bounds `(60, 85)`. -/
theorem ylim_octave_bounds (piano_roll : List NoteEvent) (p : ℤ) (ps : List ℤ)
    (h : piano_roll.map (fun n => n.1) = p :: ps)
    (path output_path : String) (show_legend dirExists : Bool) :
    ∃ r, save_piano_roll_fig piano_roll path output_path show_legend dirExists =
        .ok r ∧
      (12 : ℤ) ∣ r.ylim.1 ∧ r.ylim.1 ≤ ps.foldl min p ∧
        ps.foldl min p < r.ylim.1 + 12 ∧
      (12 : ℤ) ∣ (r.ylim.2 - 1) ∧ ps.foldl max p < r.ylim.2 - 1 ∧
        r.ylim.2 - 1 ≤ ps.foldl max p + 12 := by
  refine ⟨renderBody (ps.foldl min p) (ps.foldl max p) piano_roll path
      output_path show_legend dirExists,
    save_piano_roll_fig_ok piano_roll p ps h path output_path show_legend dirExists,
    ?_, ?_, ?_, ?_, ?_, ?_⟩ <;>
  · simp only [renderBody]
    omega

/-- C2 witness: the amended bounds hold on the concrete roll spanning MIDI 60
to 72 (min 60, max 72, bounds `(60, 85)`). -/
theorem ylim_octave_bounds_witness :
    ∃ r, save_piano_roll_fig [(60, 0, 1), (72, 1, 2)] "score" "." false true =
        .ok r ∧
      (12 : ℤ) ∣ r.ylim.1 ∧ r.ylim.1 ≤ [(72 : ℤ)].foldl min 60 ∧
        [(72 : ℤ)].foldl min 60 < r.ylim.1 + 12 ∧
      (12 : ℤ) ∣ (r.ylim.2 - 1) ∧ [(72 : ℤ)].foldl max 60 < r.ylim.2 - 1 ∧
        r.ylim.2 - 1 ≤ [(72 : ℤ)].foldl max 60 + 12 :=
  ylim_octave_bounds [(60, 0, 1), (72, 1, 2)] 60 [72] rfl "score" "." false true

/-- C3 counterexample: the claim, read over all inputs, fails on the empty
piano roll: with the output directory absent, `save_piano_roll_fig []`
raises `ValueError` at `min()` (line 26) instead of logging and returning
normally. -/
theorem missing_dir_empty_roll_raises :
    save_piano_roll_fig [] "score" "." false false = .error .valueError := by
  simp [save_piano_roll_fig, pyMin]

/-- C3 amended: for every non-empty piano roll list, when the output
directory does not exist, `save_piano_roll_fig` catches the
`FileNotFoundError`, prints the message, returns normally, and writes no
file. -/
theorem missing_dir_logged_no_file (piano_roll : List NoteEvent) (p : ℤ)
    (ps : List ℤ) (h : piano_roll.map (fun n => n.1) = p :: ps)
    (path output_path : String) (show_legend : Bool) :
    ∃ r, save_piano_roll_fig piano_roll path output_path show_legend false =
        .ok r ∧
      r.savedFile = none ∧
      r.log = ["The directory does not exist for saving the piano roll figure."] := by
  refine ⟨renderBody (ps.foldl min p) (ps.foldl max p) piano_roll path
      output_path show_legend false,
    save_piano_roll_fig_ok piano_roll p ps h path output_path show_legend false,
    ?_, ?_⟩ <;> simp [renderBody]

/-- C3 witness: the amended behaviour on the concrete one-note roll. -/
theorem missing_dir_logged_no_file_witness :
    ∃ r, save_piano_roll_fig [(60, 0, 1)] "score" "." false false = .ok r ∧
      r.savedFile = none ∧
      r.log = ["The directory does not exist for saving the piano roll figure."] :=
  missing_dir_logged_no_file [(60, 0, 1)] 60 [] rfl "score" "." false

/-- Helper: inserting an event into a list puts it before exactly the events
with strictly smaller end time, so filtering by any fixed end time `t` either
prepends the event (when its end is `t`) or leaves the filter unchanged. -/
theorem filter_orderedInsert_endTime (a : NoteEvent) (l : List NoteEvent) (t : ℚ) :
    (List.orderedInsert endTimeLE a l).filter (fun n => decide (n.2.2 = t)) =
      if a.2.2 = t then a :: l.filter (fun n => decide (n.2.2 = t))
      else l.filter (fun n => decide (n.2.2 = t)) := by
  induction l with
  | nil =>
    by_cases hat : a.2.2 = t <;>
      simp [List.orderedInsert, List.filter, hat]
  | cons b l ih =>
    by_cases hab : endTimeLE a b
    · rw [List.orderedInsert_of_le endTimeLE l hab]
      by_cases hat : a.2.2 = t <;> simp [List.filter, hat]
    · have hstep : List.orderedInsert endTimeLE a (b :: l) =
          b :: List.orderedInsert endTimeLE a l := by
        simp [List.orderedInsert, hab]
      rw [hstep]
      have hbt : b.2.2 = t → a.2.2 ≠ t := by
        intro hb ha
        exact hab (le_of_eq (ha.trans hb.symm))
      by_cases hb : b.2.2 = t
      · have hat : ¬ a.2.2 = t := hbt hb
        simp [List.filter, hb, hat, ih]
      · by_cases hat : a.2.2 = t <;> simp [List.filter, hb, hat, ih]

/-- Helper: the stable-sort property of the end-time sort: filtering the
sorted list by any end time gives the same subsequence as filtering the
input, i.e. events with equal end times keep their relative input order. -/
theorem filter_pianoRollSort (l : List NoteEvent) (t : ℚ) :
    (pianoRollSort l).filter (fun n => decide (n.2.2 = t)) =
      l.filter (fun n => decide (n.2.2 = t)) := by
  induction l with
  | nil => rfl
  | cons a l ih =>
    simp only [pianoRollSort] at ih ⊢
    show (List.orderedInsert endTimeLE a (List.insertionSort endTimeLE l)).filter _ = _
    rw [filter_orderedInsert_endTime]
    by_cases hat : a.2.2 = t <;> simp [List.filter, hat, ih]

/-- C6: `save_piano_roll_fig` sorts the caller's list (modelled by the
`sortedRoll` field, the value the caller's variable holds after the in-place
`list.sort`) into ascending order of end time; the result is a permutation
of the input, and the sort is stable: filtering the sorted list by any end
time `t` returns the events with end `t` in their original input order. -/
theorem save_sorts_roll_stably (piano_roll : List NoteEvent) (p : ℤ)
    (ps : List ℤ) (h : piano_roll.map (fun n => n.1) = p :: ps)
    (path output_path : String) (show_legend dirExists : Bool) :
    ∃ r, save_piano_roll_fig piano_roll path output_path show_legend dirExists =
        .ok r ∧
      r.sortedRoll = pianoRollSort piano_roll ∧
      List.Perm r.sortedRoll piano_roll ∧
      List.Sorted endTimeLE r.sortedRoll ∧
      ∀ t : ℚ, r.sortedRoll.filter (fun n => decide (n.2.2 = t)) =
        piano_roll.filter (fun n => decide (n.2.2 = t)) := by
  refine ⟨renderBody (ps.foldl min p) (ps.foldl max p) piano_roll path
      output_path show_legend dirExists,
    save_piano_roll_fig_ok piano_roll p ps h path output_path show_legend dirExists,
    rfl, ?_, ?_, ?_⟩
  · exact List.perm_insertionSort endTimeLE piano_roll
  · exact List.sorted_insertionSort endTimeLE piano_roll
  · exact fun t => filter_pianoRollSort piano_roll t

/-- C6 witness: on a concrete two-event roll with a tie in end times the sort
keeps the tied events in input order: `[(62, 0, 2), (60, 1, 2), (64, 0, 1)]`
becomes `[(64, 0, 1), (62, 0, 2), (60, 1, 2)]`. -/
theorem save_sorts_roll_stably_witness :
    ∃ r, save_piano_roll_fig [(62, 0, 2), (60, 1, 2), (64, 0, 1)] "score" "."
        false true = .ok r ∧
      r.sortedRoll = pianoRollSort [(62, 0, 2), (60, 1, 2), (64, 0, 1)] ∧
      List.Perm r.sortedRoll [(62, 0, 2), (60, 1, 2), (64, 0, 1)] ∧
      List.Sorted endTimeLE r.sortedRoll ∧
      ∀ t : ℚ, r.sortedRoll.filter (fun n => decide (n.2.2 = t)) =
        [((62 : ℤ), (0 : ℚ), (2 : ℚ)), (60, 1, 2), (64, 0, 1)].filter
          (fun n => decide (n.2.2 = t)) :=
  save_sorts_roll_stably [(62, 0, 2), (60, 1, 2), (64, 0, 1)] 62 [60, 64] rfl
    "score" "." false true

/-- Helper: when the key is already present, a dict assignment keeps the key
sequence unchanged. -/
theorem dictInsert_fst_of_present (d : List (String × String)) (k v : String)
    (hk : d.any (fun kv => kv.1 = k) = true) :
    (dictInsert d k v).map (fun kv => kv.1) = d.map (fun kv => kv.1) := by
  simp only [dictInsert, if_pos hk, List.map_map]
  apply List.map_congr_left
  intro kv _
  by_cases hkv : kv.1 = k <;> simp [hkv]

/-- Helper: membership in the key sequence after a dict assignment. -/
theorem dictInsert_fst_mem (d : List (String × String)) (k v x : String) :
    (x ∈ (dictInsert d k v).map (fun kv => kv.1)) ↔
      x ∈ d.map (fun kv => kv.1) ∨ x = k := by
  by_cases hk : d.any (fun kv => kv.1 = k) = true
  · rw [dictInsert_fst_of_present d k v hk]
    simp only [List.any_eq_true, decide_eq_true_eq] at hk
    obtain ⟨kv, hkvmem, hkv⟩ := hk
    constructor
    · exact Or.inl
    · rintro (hx | rfl)
      · exact hx
      · exact List.mem_map.mpr ⟨kv, hkvmem, hkv⟩
  · simp only [dictInsert, if_neg hk, List.map_append]
    simp [List.mem_append]

/-- Helper: a dict assignment preserves distinctness of the keys. -/
theorem dictInsert_fst_nodup (d : List (String × String)) (k v : String)
    (hd : (d.map (fun kv => kv.1)).Nodup) :
    ((dictInsert d k v).map (fun kv => kv.1)).Nodup := by
  by_cases hk : d.any (fun kv => kv.1 = k) = true
  · rw [dictInsert_fst_of_present d k v hk]
    exact hd
  · simp only [dictInsert, if_neg hk, List.map_append, List.map_cons, List.map_nil]
    simp only [List.any_eq_true, decide_eq_true_eq, not_exists, not_and] at hk
    refine List.Nodup.append hd (List.nodup_singleton k) ?_
    intro x hx hxk
    simp only [List.mem_singleton] at hxk
    subst hxk
    obtain ⟨kv, hkvmem, hkv⟩ := List.mem_map.mp hx
    exact hk kv hkvmem hkv

/-- Helper: a key occurs in the legend dict built from a list of events iff
some event's pitch-class name is that key (relative to any starting dict). -/
theorem foldl_dictInsert_fst_mem (l : List NoteEvent)
    (d : List (String × String)) (x : String) :
    (x ∈ ((l.foldl (fun d2 n => dictInsert d2 (pitchClassName n.1) (colorOf n.1)) d).map
        (fun kv => kv.1)) ↔
      x ∈ d.map (fun kv => kv.1) ∨ ∃ ev ∈ l, pitchClassName ev.1 = x) := by
  induction l generalizing d with
  | nil => simp
  | cons ev l ih =>
    rw [List.foldl_cons, ih, dictInsert_fst_mem]
    simp only [List.mem_cons]
    constructor
    · rintro ((hx | rfl) | ⟨ev2, hev2, hx⟩)
      · exact Or.inl hx
      · exact Or.inr ⟨ev, Or.inl rfl, rfl⟩
      · exact Or.inr ⟨ev2, Or.inr hev2, hx⟩
    · rintro (hx | ⟨ev2, (rfl | hev2), hx⟩)
      · exact Or.inl (Or.inl hx)
      · exact Or.inl (Or.inr hx.symm)
      · exact Or.inr ⟨ev2, hev2, hx⟩

/-- Helper: the legend dict built from a list of events has distinct keys. -/
theorem foldl_dictInsert_fst_nodup (l : List NoteEvent)
    (d : List (String × String)) (hd : (d.map (fun kv => kv.1)).Nodup) :
    ((l.foldl (fun d2 n => dictInsert d2 (pitchClassName n.1) (colorOf n.1)) d).map
      (fun kv => kv.1)).Nodup := by
  induction l generalizing d with
  | nil => exact hd
  | cons ev l ih =>
    rw [List.foldl_cons]
    exact ih _ (dictInsert_fst_nodup d _ _ hd)

/-- C8: with `show_legend` set, the displayed legend has distinct pitch-class
names, its names are exactly the pitch classes present among the input
events, and the entries are in ascending order of the position of their name
in the fixed table `PITCH_CLASSES`. -/
theorem legend_one_entry_per_present_class (piano_roll : List NoteEvent)
    (p : ℤ) (ps : List ℤ) (h : piano_roll.map (fun n => n.1) = p :: ps)
    (path output_path : String) (dirExists : Bool) :
    ∃ r, save_piano_roll_fig piano_roll path output_path true dirExists = .ok r ∧
      (r.legendShown.map (fun kv => kv.1)).Nodup ∧
      (∀ x, x ∈ r.legendShown.map (fun kv => kv.1) ↔
        ∃ ev ∈ piano_roll, pitchClassName ev.1 = x) ∧
      List.Pairwise (fun a b => PITCH_CLASSES.indexOf a ≤ PITCH_CLASSES.indexOf b)
        (r.legendShown.map (fun kv => kv.1)) := by
  refine ⟨renderBody (ps.foldl min p) (ps.foldl max p) piano_roll path
      output_path true dirExists,
    save_piano_roll_fig_ok piano_roll p ps h path output_path true dirExists,
    ?_, ?_, ?_⟩
  all_goals
    have hshown : (renderBody (ps.foldl min p) (ps.foldl max p) piano_roll path
        output_path true dirExists).legendShown =
        List.insertionSort legendEntryLE (buildLegend (pianoRollSort piano_roll)) := rfl
    rw [hshown]
  all_goals
    have hperm : List.Perm
        (List.insertionSort legendEntryLE (buildLegend (pianoRollSort piano_roll)))
        (buildLegend (pianoRollSort piano_roll)) :=
      List.perm_insertionSort legendEntryLE _
  · exact ((hperm.map (fun kv => kv.1)).nodup_iff).mpr
      (foldl_dictInsert_fst_nodup (pianoRollSort piano_roll) [] (by simp))
  · intro x
    rw [(hperm.map (fun kv => kv.1)).mem_iff]
    rw [show buildLegend (pianoRollSort piano_roll) =
      (pianoRollSort piano_roll).foldl
        (fun d2 n => dictInsert d2 (pitchClassName n.1) (colorOf n.1)) [] from rfl]
    rw [foldl_dictInsert_fst_mem]
    simp only [List.map_nil, List.not_mem_nil, false_or]
    constructor
    · rintro ⟨ev, hev, hx⟩
      exact ⟨ev, (List.mem_insertionSort endTimeLE).mp hev, hx⟩
    · rintro ⟨ev, hev, hx⟩
      exact ⟨ev, (List.mem_insertionSort endTimeLE).mpr hev, hx⟩
  · rw [List.pairwise_map]
    exact List.sorted_insertionSort legendEntryLE (buildLegend (pianoRollSort piano_roll))

/-- C8 witness: for a roll with pitch classes C (twice, as MIDI 60 and 72)
and D (MIDI 62), the displayed legend names are distinct, are exactly the
classes present, and are ordered by the fixed table. -/
theorem legend_one_entry_per_present_class_witness :
    ∃ r, save_piano_roll_fig [(62, 0, 1), (60, 1, 2), (72, 2, 3)] "score" "."
        true true = .ok r ∧
      (r.legendShown.map (fun kv => kv.1)).Nodup ∧
      (∀ x, x ∈ r.legendShown.map (fun kv => kv.1) ↔
        ∃ ev ∈ [((62 : ℤ), (0 : ℚ), (1 : ℚ)), (60, 1, 2), (72, 2, 3)],
          pitchClassName ev.1 = x) ∧
      List.Pairwise (fun a b => PITCH_CLASSES.indexOf a ≤ PITCH_CLASSES.indexOf b)
        (r.legendShown.map (fun kv => kv.1)) :=
  legend_one_entry_per_present_class [(62, 0, 1), (60, 1, 2), (72, 2, 3)] 62
    [60, 72] rfl "score" "." true
